import Mathlib

/-!
Verification development for the `tools` repository, a set of small
command-line utilities.  The embedded programs are:

* `Workflow-to-GPX/workflow_to_gpx.py` — JSON-to-GPX track conversion
  (`has_lat_lon`, `find_tracks`, `parse_time`, `track_to_gpx`);
* `github-projects-sprints/create_sprints.py` — CSV parsing and the
  sprint-creation loop of `main`;
* `update_index.py` — marker-delimited regeneration of `index.html`.

JSON documents are embedded as the inductive type `JValue`; Python dicts
become association lists (JSON objects have unique keys, so first-match
lookup coincides with dict lookup), Python strings become `List Char`
(sequences of code points), and Python numbers become `ℚ`.  Fallible
Python code (uncaught exceptions) is embedded with `Except`/`Option`.
-/

namespace Tools

/-- A JSON value as produced by `json.load`.  `null` embeds Python `None`. -/
inductive JValue where
  | null : JValue
  | bool : Bool → JValue
  | num : ℚ → JValue
  | str : String → JValue
  | arr : List JValue → JValue
  | obj : List (String × JValue) → JValue

/-- Python `k in point` for a dict embedded as an association list. -/
def hasKey (pt : List (String × JValue)) (k : String) : Bool :=
  pt.any (fun kv => kv.1 == k)

/-- Python `point.get(k)`: `some v` when the key is present with value `v`
(a present JSON `null` yields `some JValue.null`), `none` when absent. -/
def jGet (pt : List (String × JValue)) (k : String) : Option JValue :=
  (pt.find? (fun kv => kv.1 == k)).map (fun kv => kv.2)

/-- `has_lat_lon` from workflow_to_gpx.py: the point has at least one
latitude-alias key and at least one longitude-alias key. -/
def has_lat_lon (pt : List (String × JValue)) : Bool :=
  (["lat", "latitude"].any (fun k => hasKey pt k)) &&
  (["lon", "lng", "longitude"].any (fun k => hasKey pt k))

/-- The element test used by `find_tracks`:
`isinstance(p, dict) and has_lat_lon(p)`. -/
def isPointMap : JValue → Bool
  | .obj kvs => has_lat_lon kvs
  | _ => false

/-- The condition under which `find_tracks` classifies a list as a track:
`obj and all(isinstance(p, dict) and has_lat_lon(p) for p in obj)`. -/
def goodSeq (xs : List JValue) : Bool :=
  !xs.isEmpty && xs.all isPointMap

mutual

/-- `find_tracks` from workflow_to_gpx.py: depth-first search returning
every maximal list all of whose elements are coordinate-bearing mappings. -/
def find_tracks : JValue → List (List JValue)
  | .arr xs => if goodSeq xs then [xs] else findInList xs
  | .obj kvs => findInObj kvs
  | .null => []
  | .bool _ => []
  | .num _ => []
  | .str _ => []

/-- The `for item in obj: tracks.extend(find_tracks(item))` loop. -/
def findInList : List JValue → List (List JValue)
  | [] => []
  | x :: rest => find_tracks x ++ findInList rest

/-- The `for value in obj.values(): tracks.extend(find_tracks(value))` loop. -/
def findInObj : List (String × JValue) → List (List JValue)
  | [] => []
  | kv :: rest => find_tracks kv.2 ++ findInObj rest

end

theorem mem_findInList {t : List JValue} {xs : List JValue}
    (h : t ∈ findInList xs) : ∃ x ∈ xs, t ∈ find_tracks x := by
  induction xs with
  | nil => simp [findInList] at h
  | cons y ys ih =>
    rw [findInList] at h
    rcases List.mem_append.mp h with h1 | h2
    · exact ⟨y, by simp, h1⟩
    · obtain ⟨x, hx, hmem⟩ := ih h2
      exact ⟨x, by simp [hx], hmem⟩

theorem mem_findInObj {t : List JValue} {kvs : List (String × JValue)}
    (h : t ∈ findInObj kvs) : ∃ kv ∈ kvs, t ∈ find_tracks kv.2 := by
  induction kvs with
  | nil => simp [findInObj] at h
  | cons y ys ih =>
    rw [findInObj] at h
    rcases List.mem_append.mp h with h1 | h2
    · exact ⟨y, by simp, h1⟩
    · obtain ⟨kv, hkv, hmem⟩ := ih h2
      exact ⟨kv, by simp [hkv], hmem⟩

/-- Every list returned by `find_tracks` satisfies the track condition. -/
theorem find_tracks_good (v : JValue) :
    ∀ t ∈ find_tracks v, goodSeq t = true := by
  have main : ∀ n (v : JValue), sizeOf v ≤ n →
      ∀ t ∈ find_tracks v, goodSeq t = true := by
    intro n
    induction n with
    | zero => intro v hv; cases v <;> simp_all
    | succ n ih =>
      intro v hv t ht
      cases v with
      | arr xs =>
        rw [find_tracks] at ht
        by_cases hg : goodSeq xs
        · rw [if_pos hg] at ht
          simp at ht
          subst ht; exact hg
        · rw [if_neg hg] at ht
          obtain ⟨x, hx, hmem⟩ := mem_findInList ht
          have hs : sizeOf x < sizeOf (JValue.arr xs) := by
            have := List.sizeOf_lt_of_mem hx
            simp only [JValue.arr.sizeOf_spec]
            omega
          exact ih x (by omega) t hmem
      | obj kvs =>
        rw [find_tracks] at ht
        obtain ⟨kv, hkv, hmem⟩ := mem_findInObj ht
        have hs : sizeOf kv.2 < sizeOf (JValue.obj kvs) := by
          have h1 := List.sizeOf_lt_of_mem hkv
          have h2 : sizeOf kv.2 < sizeOf kv := by
            cases kv; simp
          simp only [JValue.obj.sizeOf_spec]
          omega
        exact ih kv.2 (by omega) t hmem
      | null => simp [find_tracks] at ht
      | bool b => simp [find_tracks] at ht
      | num q => simp [find_tracks] at ht
      | str s => simp [find_tracks] at ht
  exact main (sizeOf v) v (le_refl _)

/-! ## String utilities shared by the embedded scripts -/

/-- Characters stripped by Python `str.strip()` / matched by `\s`
(ASCII portion; the strings handled in this development are ASCII). -/
def isPySpace (c : Char) : Bool :=
  c = ' ' || c = '\t' || c = '\n' || c = '\r' || c = '\x0b' || c = '\x0c'

/-- Python `str.strip()`. -/
def pyStrip (s : List Char) : List Char :=
  ((s.dropWhile isPySpace).reverse.dropWhile isPySpace).reverse

theorem dropWhile_len_le (p : Char → Bool) (l : List Char) :
    (l.dropWhile p).length ≤ l.length := by
  induction l with
  | nil => simp
  | cons c cs ih =>
    rw [List.dropWhile]
    by_cases h : p c
    · simp only [h]; exact Nat.le_succ_of_le ih
    · simp only [h]; simp

/-- Scan for `re.sub(r"\s+", " ", s)`: the flag records whether the
previous character belonged to a whitespace run already emitted as one
space. -/
def collapseWsAux (prevSpace : Bool) : List Char → List Char
  | [] => []
  | c :: rest =>
    if isPySpace c then
      if prevSpace then collapseWsAux true rest
      else ' ' :: collapseWsAux true rest
    else c :: collapseWsAux false rest

/-- The `re.sub(r"\s+", " ", s)` step: collapse every whitespace run to a
single ASCII space. -/
def collapseWs (s : List Char) : List Char := collapseWsAux false s

/-- A `\w` character (ASCII portion of Python's word-character class). -/
def isWordChar (c : Char) : Bool := c.isAlpha || c.isDigit || c = '_'

/-- The `re.sub(r"\b(am|pm)\b", upper, s, flags=IGNORECASE)` step: uppercase
every standalone `am`/`pm` token.  The flag argument is whether the
previous character was a word character (i.e. whether we are inside a word,
so no `\b` boundary precedes the current position). -/
def upAmPm : Bool → List Char → List Char
  | _, [] => []
  | _, [c] => [c]
  | prev, c1 :: c2 :: rest =>
    if !prev && (c1 = 'a' || c1 = 'A' || c1 = 'p' || c1 = 'P') &&
        (c2 = 'm' || c2 = 'M') &&
        (match rest with | [] => true | r :: _ => !isWordChar r) then
      c1.toUpper :: 'M' :: upAmPm true rest
    else
      c1 :: upAmPm (isWordChar c1) (c2 :: rest)

/-- Does `pat` occur at the very start of `s`? -/
def startsWithL : List Char → List Char → Bool
  | [], _ => true
  | _ :: _, [] => false
  | p :: ps, c :: cs => p = c && startsWithL ps cs

/-- Split `s` at the first (leftmost) occurrence of `pat`:
`some (a, b)` with `s = a ++ pat ++ b` and `a` shortest possible. -/
def strSplitFirst (pat : List Char) : List Char → Option (List Char × List Char)
  | [] => if startsWithL pat [] then some ([], []) else none
  | c :: cs =>
    if startsWithL pat (c :: cs) then some ([], (c :: cs).drop pat.length)
    else (strSplitFirst pat cs).map (fun ab => (c :: ab.1, ab.2))

/-- Bool test for substring occurrence, via `strSplitFirst`. -/
def containsSub (pat s : List Char) : Bool := (strSplitFirst pat s).isSome

theorem startsWithL_iff (pat s : List Char) :
    startsWithL pat s = true ↔ ∃ t, s = pat ++ t := by
  induction pat generalizing s with
  | nil => simp [startsWithL]
  | cons p ps ih =>
    cases s with
    | nil =>
      simp only [startsWithL]
      constructor
      · intro h; exact absurd h (by simp)
      · rintro ⟨t, ht⟩; simp at ht
    | cons c cs =>
      simp only [startsWithL, Bool.and_eq_true, decide_eq_true_eq, ih]
      constructor
      · rintro ⟨rfl, t, rfl⟩; exact ⟨t, rfl⟩
      · rintro ⟨t, ht⟩
        injection ht with h1 h2
        exact ⟨h1.symm, t, h2⟩

/-- Minimality of a split position: every decomposition of `a ++ pat ++ x`
around `pat` places the occurrence no earlier than `a.length`. -/
def MinSplit (pat a x : List Char) : Prop :=
  ∀ a' b', a ++ pat ++ x = a' ++ pat ++ b' → a.length ≤ a'.length

theorem strSplitFirst_sound {pat s a b : List Char}
    (h : strSplitFirst pat s = some (a, b)) :
    s = a ++ pat ++ b ∧ MinSplit pat a b := by
  induction s generalizing a b with
  | nil =>
    rw [strSplitFirst] at h
    by_cases hs : startsWithL pat [] = true
    · rw [if_pos hs] at h
      obtain ⟨t, ht⟩ := (startsWithL_iff pat []).mp hs
      have hp : pat = [] := by
        cases pat with
        | nil => rfl
        | cons x xs => simp at ht
      injection h with h'
      injection h' with h1 h2
      subst h1
      subst h2
      subst hp
      exact ⟨rfl, fun a' b' _ => Nat.zero_le _⟩
    · rw [if_neg hs] at h; simp at h
  | cons c cs ih =>
    rw [strSplitFirst] at h
    by_cases hs : startsWithL pat (c :: cs) = true
    · rw [if_pos hs] at h
      obtain ⟨t, ht⟩ := (startsWithL_iff pat (c :: cs)).mp hs
      injection h with h'
      injection h' with h1 h2
      subst h1
      have hd : (c :: cs).drop pat.length = t := by
        rw [ht, List.drop_append_of_le_length (le_refl _), List.drop_length,
          List.nil_append]
      rw [hd] at h2
      subst h2
      exact ⟨by simpa using ht, fun a' b' _ => Nat.zero_le _⟩
    · rw [if_neg hs] at h
      cases hrec : strSplitFirst pat cs with
      | none => rw [hrec] at h; simp at h
      | some ab =>
        obtain ⟨a0, b0⟩ := ab
        rw [hrec] at h
        simp only [Option.map_some'] at h
        injection h with h'
        injection h' with h1 h2
        obtain ⟨he, hmin⟩ := ih hrec
        subst h2
        subst h1
        constructor
        · simp [he]
        · intro a' b' heq
          cases a' with
          | nil =>
            exfalso
            apply hs
            rw [startsWithL_iff]
            refine ⟨b', ?_⟩
            rw [he]
            simpa using heq
          | cons c' a1 =>
            have h3 : c :: (a0 ++ (pat ++ b0)) = c' :: (a1 ++ (pat ++ b')) := by
              simpa using heq
            have ht2 : a0 ++ (pat ++ b0) = a1 ++ (pat ++ b') :=
              (List.cons_eq_cons.mp h3).2
            have htail : a0 ++ pat ++ b0 = a1 ++ pat ++ b' := by
              simpa using ht2
            have := hmin a1 b' htail
            simp only [List.length_cons]
            omega

theorem minSplit_transfer {pat a x : List Char} (h : MinSplit pat a x)
    (y : List Char) : MinSplit pat a y := by
  intro a' b' heq
  by_contra hlt
  push_neg at hlt
  have hle : a'.length + pat.length ≤ (a ++ pat).length := by
    simp only [List.length_append]; omega
  have h1 : (a ++ pat ++ y).take (a'.length + pat.length) =
      (a ++ pat).take (a'.length + pat.length) :=
    List.take_append_of_le_length hle
  have h2 : (a' ++ pat ++ b').take (a'.length + pat.length) = a' ++ pat := by
    rw [List.take_append_of_le_length (by simp only [List.length_append]; omega)]
    have hl : (a' ++ pat).length = a'.length + pat.length := by
      simp only [List.length_append]
    rw [← hl, List.take_length]
  have hpre : (a ++ pat).take (a'.length + pat.length) = a' ++ pat := by
    rw [← h1, heq, h2]
  have hdecomp : a ++ pat ++ x =
      a' ++ pat ++ ((a ++ pat).drop (a'.length + pat.length) ++ x) :=
    calc a ++ pat ++ x
        = ((a ++ pat).take (a'.length + pat.length) ++
            (a ++ pat).drop (a'.length + pat.length)) ++ x := by
          rw [List.take_append_drop]
      _ = (a' ++ pat ++ (a ++ pat).drop (a'.length + pat.length)) ++ x := by
          rw [hpre]
      _ = a' ++ pat ++ ((a ++ pat).drop (a'.length + pat.length) ++ x) := by
          simp only [List.append_assoc]
  have := h a' _ hdecomp
  omega

theorem strSplitFirst_prefix (pat b : List Char) :
    strSplitFirst pat (pat ++ b) = some ([], b) := by
  have hs : startsWithL pat (pat ++ b) = true := (startsWithL_iff _ _).mpr ⟨b, rfl⟩
  have hd : (pat ++ b).drop pat.length = b := by
    rw [List.drop_append_of_le_length (le_refl _), List.drop_length,
      List.nil_append]
  cases hpb : pat ++ b with
  | nil =>
    rw [hpb] at hs hd
    rw [strSplitFirst, if_pos hs]
    simp only [List.drop_nil] at hd
    rw [hd]
  | cons c cs =>
    rw [hpb] at hs hd
    rw [strSplitFirst, if_pos hs, hd]

theorem strSplitFirst_of {pat a b : List Char} (hmin : MinSplit pat a b) :
    strSplitFirst pat (a ++ pat ++ b) = some (a, b) := by
  induction a with
  | nil => simpa using strSplitFirst_prefix pat b
  | cons c a0 ih =>
    have hmin0 : MinSplit pat a0 b := by
      intro a' b' heq
      have hcons := congrArg (fun l => c :: l) heq
      have := hmin (c :: a') b' (by simpa using hcons)
      simpa using this
    have hs : startsWithL pat (c :: (a0 ++ (pat ++ b))) = false := by
      by_contra hcon
      rw [Bool.not_eq_false, startsWithL_iff] at hcon
      obtain ⟨t, ht⟩ := hcon
      have := hmin [] t (by simpa using ht)
      simp at this
    show strSplitFirst pat (c :: (a0 ++ pat ++ b)) = some (c :: a0, b)
    rw [strSplitFirst, if_neg (by simp [hs]), ih hmin0]
    rfl
theorem strSplitFirst_none {pat s : List Char}
    (h : strSplitFirst pat s = none) : ∀ a b, s ≠ a ++ pat ++ b := by
  induction s with
  | nil =>
    intro a b
    rw [strSplitFirst] at h
    by_cases hs : startsWithL pat [] = true
    · rw [if_pos hs] at h; exact absurd h (by simp)
    · intro heq
      apply hs
      rw [startsWithL_iff]
      cases a with
      | nil => exact ⟨b, by simpa using heq⟩
      | cons x xs => simp at heq
  | cons c cs ih =>
    intro a b heq
    rw [strSplitFirst] at h
    by_cases hs : startsWithL pat (c :: cs) = true
    · rw [if_pos hs] at h; exact absurd h (by simp)
    · rw [if_neg hs] at h
      cases a with
      | nil =>
        apply hs
        rw [startsWithL_iff]
        exact ⟨b, by simpa using heq⟩
      | cons c' a0 =>
        simp only [List.cons_append] at heq
        injection heq with hc htail
        cases hrec : strSplitFirst pat cs with
        | none => exact ih hrec a0 b (by simpa using htail)
        | some ab => rw [hrec] at h; simp at h

theorem strSplitFirst_isSome_of_occurs {pat s a b : List Char}
    (h : s = a ++ pat ++ b) : (strSplitFirst pat s).isSome = true := by
  cases hr : strSplitFirst pat s with
  | none => exact absurd h (strSplitFirst_none hr a b)
  | some ab => rfl

/-- Scanning loop of `str.replace` for a non-empty pattern: at each
position, an occurrence of `pat` is replaced by `repl` and scanning
resumes after it.  Structural recursion on a fuel that starts at the input
length, which suffices because each step consumes at least one
character. -/
def pyReplaceAux (pat repl : List Char) : Nat → List Char → List Char
  | 0, s => s
  | _ + 1, [] => []
  | fuel + 1, c :: cs =>
    if startsWithL pat (c :: cs) then
      repl ++ pyReplaceAux pat repl fuel ((c :: cs).drop pat.length)
    else c :: pyReplaceAux pat repl fuel cs

/-- Python `str.replace(pat, repl)` for a non-empty `pat`: replace every
non-overlapping occurrence, left to right.  (The scripts only call it with
non-empty patterns; an empty pattern is returned unchanged here.) -/
def pyReplace (pat repl : List Char) (s : List Char) : List Char :=
  if pat.isEmpty then s else pyReplaceAux pat repl s.length s

/-! ## Calendar arithmetic

`datetime` values are embedded as an absolute instant: a rational number of
seconds since the Unix epoch (UTC).  Conversion between calendar fields and
epoch days uses the standard civil-calendar algorithms with floor
division. -/

/-- Days since 1970-01-01 of the civil date `y-m-d` (proleptic Gregorian). -/
def daysFromCivil (y m d : Int) : Int :=
  let y1 : Int := y - (if m ≤ 2 then 1 else 0)
  let era : Int := Int.fdiv y1 400
  let yoe : Int := y1 - era * 400
  let mp : Int := Int.emod (m + 9) 12
  let doy : Int := Int.fdiv (153 * mp + 2) 5 + d - 1
  let doe : Int := yoe * 365 + Int.fdiv yoe 4 - Int.fdiv yoe 100 + doy
  era * 146097 + doe - 719468

/-- Inverse of `daysFromCivil`: the civil date of an epoch-day count. -/
def civilFromDays (z0 : Int) : Int × Int × Int :=
  let z : Int := z0 + 719468
  let era : Int := Int.fdiv z 146097
  let doe : Int := z - era * 146097
  let yoe : Int :=
    Int.fdiv (doe - Int.fdiv doe 1460 + Int.fdiv doe 36524 - Int.fdiv doe 146096) 365
  let y : Int := yoe + era * 400
  let doy : Int := doe - (365 * yoe + Int.fdiv yoe 4 - Int.fdiv yoe 100)
  let mp : Int := Int.fdiv (5 * doy + 2) 153
  let d : Int := doy - Int.fdiv (153 * mp + 2) 5 + 1
  let m : Int := mp + (if mp < 10 then 3 else -9)
  (y + (if m ≤ 2 then 1 else 0), m, d)

/-- Gregorian leap-year test. -/
def isLeap (y : Int) : Bool :=
  (Int.emod y 4 = 0 && !(Int.emod y 100 = 0)) || Int.emod y 400 = 0

/-- Length of month `m` in year `y`. -/
def daysInMonth (y m : Int) : Int :=
  if m = 2 then (if isLeap y then 29 else 28)
  else if m = 4 || m = 6 || m = 9 || m = 11 then 30
  else 31

/-! ## The timestamp normalizer (`parse_time`) -/

/-- Fields of a Python `datetime` as produced by the parsing routines:
calendar date, time of day, fractional seconds, and an optional UTC offset
in seconds (`none` embeds a naive datetime). -/
structure DT where
  year : Int
  month : Int
  day : Int
  hour : Int
  minute : Int
  second : Int
  frac : ℚ
  tz : Option Int
deriving DecidableEq

/-- Validation performed by the `datetime` constructor; a failing
construction raises `ValueError` in Python. -/
def DT.valid (dt : DT) : Bool :=
  1 ≤ dt.year && dt.year ≤ 9999 && 1 ≤ dt.month && dt.month ≤ 12 &&
  1 ≤ dt.day && dt.day ≤ daysInMonth dt.year dt.month &&
  0 ≤ dt.hour && dt.hour ≤ 23 && 0 ≤ dt.minute && dt.minute ≤ 59 &&
  0 ≤ dt.second && dt.second ≤ 59

/-- Epoch seconds (UTC) of a datetime.  A naive datetime is taken as UTC,
matching `if dt.tzinfo is None: dt = dt.replace(tzinfo=timezone.utc)`
followed by `dt.astimezone(timezone.utc)` in `parse_time`. -/
def dtToUtc (dt : DT) : ℚ :=
  ((daysFromCivil dt.year dt.month dt.day * 86400 + dt.hour * 3600 +
    dt.minute * 60 + dt.second - dt.tz.getD 0 : Int) : ℚ) + dt.frac

/-- `datetime.fromtimestamp(q, tz=timezone.utc)`: the identity on epoch
seconds, except that instants outside `datetime`'s supported range
(years 1..9999) raise (`ValueError`/`OverflowError`). -/
def fromtimestamp (q : ℚ) : Except Unit ℚ :=
  if -62135596800 ≤ q ∧ q < 253402300800 then .ok q else .error ()

/-- The seconds/milliseconds heuristic of `parse_time`:
`if val > 1e12: val /= 1000.0`. -/
def numericTimestamp (v : ℚ) : ℚ := if 10 ^ 12 < v then v / 1000 else v

def isDigitChar (c : Char) : Bool := '0' ≤ c && c ≤ '9'

def digitVal (c : Char) : Nat := c.toNat - 48

def digitsToNat (ds : List Char) : Nat :=
  ds.foldl (fun acc c => acc * 10 + digitVal c) 0

/-- Read exactly `n` leading digits. -/
def readDigits (n : Nat) (s : List Char) : Option (Nat × List Char) :=
  let pre := s.take n
  if pre.length = n && pre.all isDigitChar then
    some (digitsToNat pre, s.drop n)
  else none

/-- The `re.fullmatch(r"[-+]?\d+(?:\.\d+)?", s)` test together with the
`float(s)` conversion of the matched string. -/
def parseSignedDec (s : List Char) : Option ℚ :=
  let sr : ℚ × List Char :=
    match s with
    | '+' :: r => (1, r)
    | '-' :: r => (-1, r)
    | _ => (1, s)
  let ds := sr.2.takeWhile isDigitChar
  if ds.isEmpty then none
  else
    match sr.2.drop ds.length with
    | [] => some (sr.1 * digitsToNat ds)
    | '.' :: r3 =>
      let fs := r3.takeWhile isDigitChar
      if fs.isEmpty || !(r3.drop fs.length).isEmpty then none
      else some (sr.1 * ((digitsToNat ds : ℚ) +
        (digitsToNat fs : ℚ) / (10 : ℚ) ^ fs.length))
    | _ => none

/-- Read one or two leading digits as CPython's `_strptime` regex patterns
do: a two-digit match is preferred when its value lies in `[lo2, hi2]`,
otherwise a single digit with value at least `lo1` is taken.  (CPython uses
regex alternations such as `1[0-2]|0[1-9]|[1-9]`; on every string this
development evaluates, this greedy reading coincides with them.) -/
def readNum (lo2 hi2 lo1 : Nat) (s : List Char) : Option (Nat × List Char) :=
  match readDigits 2 s with
  | some (v, rest) =>
    if lo2 ≤ v && v ≤ hi2 then some (v, rest)
    else
      match readDigits 1 s with
      | some (v1, rest1) => if lo1 ≤ v1 then some (v1, rest1) else none
      | none => none
  | none =>
    match readDigits 1 s with
    | some (v1, rest1) => if lo1 ≤ v1 then some (v1, rest1) else none
    | none => none

/-- The `%z` directive: `±HH:MM` or `±HHMM`, as an offset in seconds. -/
def readTz (s : List Char) : Option (Int × List Char) :=
  match s with
  | c :: rest =>
    if c = '+' || c = '-' then
      match readDigits 2 rest with
      | none => none
      | some (hh, r1) =>
        let r2 := match r1 with | ':' :: r => r | _ => r1
        match readDigits 2 r2 with
        | none => none
        | some (mm, r3) =>
          some ((if c = '+' then 1 else -1) * ((hh : Int) * 3600 + mm * 60), r3)
    else none
  | [] => none

/-- Partial result of a `strptime` match: the raw captured fields. -/
structure StrpAcc where
  y : Nat
  m : Nat
  d : Nat
  H : Nat
  M : Nat
  S : Nat
  I : Option Nat
  pm : Option Bool
  z : Option Int
deriving DecidableEq

def strpInit : StrpAcc := ⟨1900, 1, 1, 0, 0, 0, none, none, none⟩

/-- The matching loop of `datetime.strptime` for the directives appearing
in the embedded format strings (`%Y %m %d %H %M %S %I %p %z`) and literal
characters; the whole input must be consumed. -/
def strpLoop : List Char → List Char → StrpAcc → Option StrpAcc
  | [], s, acc => if s.isEmpty then some acc else none
  | ['%'], _, _ => none
  | '%' :: c :: f, s, acc =>
    if c = 'Y' then
      (readDigits 4 s).bind fun vr => strpLoop f vr.2 { acc with y := vr.1 }
    else if c = 'm' then
      (readNum 1 12 1 s).bind fun vr => strpLoop f vr.2 { acc with m := vr.1 }
    else if c = 'd' then
      (readNum 1 31 1 s).bind fun vr => strpLoop f vr.2 { acc with d := vr.1 }
    else if c = 'H' then
      (readNum 0 23 0 s).bind fun vr => strpLoop f vr.2 { acc with H := vr.1 }
    else if c = 'I' then
      (readNum 1 12 1 s).bind fun vr => strpLoop f vr.2 { acc with I := some vr.1 }
    else if c = 'M' then
      (readNum 0 59 0 s).bind fun vr => strpLoop f vr.2 { acc with M := vr.1 }
    else if c = 'S' then
      (readNum 0 61 0 s).bind fun vr => strpLoop f vr.2 { acc with S := vr.1 }
    else if c = 'p' then
      match s with
      | x :: y :: r =>
        if (x = 'A' || x = 'a') && (y = 'M' || y = 'm') then
          strpLoop f r { acc with pm := some false }
        else if (x = 'P' || x = 'p') && (y = 'M' || y = 'm') then
          strpLoop f r { acc with pm := some true }
        else none
      | _ => none
    else if c = 'z' then
      (readTz s).bind fun vr => strpLoop f vr.2 { acc with z := some vr.1 }
    else none
  | c :: f, s, acc =>
    match s with
    | c' :: sr => if c = c' then strpLoop f sr acc else none
    | [] => none

/-- `datetime.strptime(s, fmt)`, including the 12-hour-clock combination of
`%I` with `%p` and the `datetime`-constructor validation; `none` embeds a
raised `ValueError` (callers catch it). -/
def strptime (fmt s : List Char) : Option DT :=
  match strpLoop fmt s strpInit with
  | none => none
  | some acc =>
    let hour : Nat :=
      match acc.I, acc.pm with
      | some i, some true => if i = 12 then 12 else i + 12
      | some i, some false => if i = 12 then 0 else i
      | some i, none => i
      | none, _ => acc.H
    let dt : DT := ⟨acc.y, acc.m, acc.d, hour, acc.M, acc.S, 0, acc.z⟩
    if dt.valid then some dt else none

/-- Fractional-second suffix `.d{1,6}` or `,d{1,6}` of an ISO time. -/
def readFrac (s : List Char) : Option (ℚ × List Char) :=
  match s with
  | sep :: rest =>
    if sep = '.' || sep = ',' then
      let ds := rest.takeWhile isDigitChar
      if ds.length = 0 || ds.length > 6 then none
      else some ((digitsToNat ds : ℚ) / (10 : ℚ) ^ ds.length, rest.drop ds.length)
    else none
  | [] => none

/-- Time-of-day part `HH[:MM[:SS[.frac]]]` of an ISO string. -/
def isoTimePart (r : List Char) : Option ((Nat × Nat × Nat × ℚ) × List Char) := do
  let (h, r1) ← readDigits 2 r
  match r1 with
  | ':' :: r2 => do
    let (mi, r3) ← readDigits 2 r2
    match r3 with
    | ':' :: r4 => do
      let (se, r5) ← readDigits 2 r4
      match readFrac r5 with
      | some (f, r6) => some ((h, mi, se, f), r6)
      | none => some ((h, mi, se, 0), r5)
    | _ => some ((h, mi, 0, 0), r3)
  | _ => some ((h, 0, 0, 0), r1)

/-- Optional UTC-offset suffix `±HH:MM` or `±HHMM` of an ISO string. -/
def isoOffset (r : List Char) : Option (Option Int × List Char) :=
  match r with
  | [] => some (none, [])
  | c :: rest =>
    if c = '+' || c = '-' then do
      let (hh, r1) ← readDigits 2 rest
      let mr ← match r1 with
        | ':' :: r2 => readDigits 2 r2
        | _ => readDigits 2 r1
      some (some ((if c = '+' then 1 else -1) *
        ((hh : Int) * 3600 + mr.1 * 60)), mr.2)
    else some (none, r)

/-- `datetime.fromisoformat` (Python 3.12) restricted to the extended
ISO-8601 forms reachable from `parse_time`:
`YYYY-MM-DD[<any sep>HH[:MM[:SS[.frac]]][±HH:MM|±HHMM]]`, with the
`datetime` validation.  `none` embeds a raised `ValueError`; in particular
any string whose date part is not dash-separated `YYYY-MM-DD` fails, so
slash-separated dates fall through to the explicit-format list. -/
def fromisoformat (s : List Char) : Option DT := do
  let (y, r1) ← readDigits 4 s
  let r2 ← match r1 with | '-' :: r => some r | _ => none
  let (mo, r3) ← readDigits 2 r2
  let r4 ← match r3 with | '-' :: r => some r | _ => none
  let (d, r5) ← readDigits 2 r4
  match r5 with
  | [] =>
    let dt : DT := ⟨y, mo, d, 0, 0, 0, 0, none⟩
    if dt.valid then some dt else none
  | _ :: r6 => do
    let (t4, r7) ← isoTimePart r6
    let (tz, r8) ← isoOffset r7
    if r8.isEmpty then
      let dt : DT := ⟨y, mo, d, t4.1, t4.2.1, t4.2.2.1, t4.2.2.2, tz⟩
      if dt.valid then some dt else none
    else none

/-- `unicodedata.normalize("NFKC", t)`.  NFKC normalization is the identity
on ASCII strings, and every string this development evaluates is ASCII, so
it is embedded as the identity. -/
def nfkc (s : List Char) : List Char := s

/-- The `explicit_formats` tuple of `parse_time`. -/
def explicit_formats : List String :=
  ["%Y-%m-%d %H:%M:%S%z",
   "%Y-%m-%d %H:%M:%S",
   "%Y/%m/%d %H:%M:%S%z",
   "%Y/%m/%d %H:%M:%S",
   "%Y-%m-%d %I:%M:%S %p %z",
   "%Y-%m-%d %I:%M:%S %p",
   "%Y/%m/%d %I:%M:%S %p %z",
   "%Y/%m/%d %I:%M:%S %p",
   "%Y-%m-%d %I:%M %p %z",
   "%Y-%m-%d %I:%M %p",
   "%Y/%m/%d %I:%M %p %z",
   "%Y/%m/%d %I:%M %p"]

/-- The `for fmt in explicit_formats` loop: first successful parse wins. -/
def tryFormats : List String → List Char → Option ℚ
  | [], _ => none
  | f :: fs, s =>
    match strptime f.data s with
    | some dt => some (dtToUtc dt)
    | none => tryFormats fs s

/-- Steps 3–4 of the string branch of `parse_time`: replace every `Z` by
`+00:00`, try `fromisoformat`, then the explicit format list. -/
def isoAndFormats (s : List Char) : Option ℚ :=
  let s_iso := pyReplace ['Z'] ("+00:00".data) s
  match fromisoformat s_iso with
  | some dt => some (dtToUtc dt)
  | none => tryFormats explicit_formats s

/-- The string branch of `parse_time`: NFKC-normalize, strip, collapse
whitespace, uppercase `am`/`pm` tokens, then try numeric, ISO and explicit
formats in order.  An out-of-range numeric string is caught by the
`try/except` and falls through to the ISO attempt. -/
def parse_time_str (t : List Char) : Option ℚ :=
  let s := upAmPm false (collapseWs (pyStrip (nfkc t)))
  match parseSignedDec s with
  | some val =>
    match fromtimestamp (numericTimestamp val) with
    | .ok q => some q
    | .error _ => isoAndFormats s
  | none => isoAndFormats s

/-- The `candidates` tuple of timestamp key aliases in `parse_time`. -/
def candidates : List String :=
  ["time", "timestamp", "timestampMs", "timestamp_ms", "ts", "date",
   "datetime", "created_at", "createdAt", "recorded_at", "recordedAt"]

/-- The `if k in point and point[k] is not None` scan over `candidates`. -/
def firstCandidateAux (pt : List (String × JValue)) : List String → Option JValue
  | [] => none
  | k :: ks =>
    match jGet pt k with
    | some JValue.null => firstCandidateAux pt ks
    | some v => some v
    | none => firstCandidateAux pt ks

def firstCandidate (pt : List (String × JValue)) : Option JValue :=
  firstCandidateAux pt candidates

/-- `parse_time` from workflow_to_gpx.py, as an absolute instant in epoch
seconds (UTC).  `Except.error` embeds an uncaught exception (the numeric
branch calls `datetime.fromtimestamp` outside any `try`).  A boolean value
is handled by the numeric branch, because Python's `bool` is a subclass of
`int` and so passes the `isinstance(t, (int, float))` check, with
`float(True) = 1.0` and `float(False) = 0.0`.  Mappings and sequences fall
through both `isinstance` checks and yield `None`. -/
def parse_time (pt : List (String × JValue)) : Except Unit (Option ℚ) :=
  match firstCandidate pt with
  | none => .ok none
  | some (JValue.bool b) =>
    (fromtimestamp (numericTimestamp (if b then 1 else 0))).map some
  | some (JValue.num v) => (fromtimestamp (numericTimestamp v)).map some
  | some (JValue.str s) => .ok (parse_time_str s.data)
  | some _ => .ok none

/-! ## The track renderer (`track_to_gpx`) -/

/-- Digits of the fractional part of a rational in `[0, 1)`, most
significant first; the fuel bounds the expansion (ample for every value
this development renders). -/
def fracDigitChars : Nat → ℚ → List Char
  | 0, _ => []
  | fuel + 1, q =>
    if q = 0 then []
    else
      let q10 := q * 10
      let d : Int := q10.floor
      Char.ofNat (48 + d.toNat) :: fracDigitChars fuel (q10 - (d : ℚ))

def formatFloatPos (q : ℚ) : List Char :=
  let ip : Nat := q.floor.toNat
  let fp : ℚ := q - (q.floor : ℚ)
  Nat.toDigits 10 ip ++ '.' :: (if fp = 0 then ['0'] else fracDigitChars 30 fp)

/-- Python `f"{x}"` (float `repr`) modelled for finite-decimal rationals:
sign, integer part, `'.'`, fractional digits (`"0"` when integral).  For
the short exact-decimal values this development renders (10.5, -20.25,
1.0, …) this coincides with CPython's shortest-round-trip float repr. -/
def formatFloat (q : ℚ) : List Char :=
  if q < 0 then '-' :: formatFloatPos (-q) else formatFloatPos q

/-- Python truthiness of a JSON value. -/
def jTruthy : JValue → Bool
  | .null => false
  | .bool b => b
  | .num q => !(q == 0)
  | .str s => !s.isEmpty
  | .arr xs => !xs.isEmpty
  | .obj kvs => !kvs.isEmpty

/-- Truthiness of a `point.get(k)` result (`none` embeds Python `None`). -/
def optTruthy : Option JValue → Bool
  | none => false
  | some v => jTruthy v

/-- Python `a or b`. -/
def pyOr2 (a b : Option JValue) : Option JValue := if optTruthy a then a else b

/-- `pt.get("lat") or pt.get("latitude")`. -/
def latVal (pt : List (String × JValue)) : Option JValue :=
  pyOr2 (jGet pt "lat") (jGet pt "latitude")

/-- `pt.get("lon") or pt.get("lng") or pt.get("longitude")`. -/
def lonVal (pt : List (String × JValue)) : Option JValue :=
  pyOr2 (jGet pt "lon") (pyOr2 (jGet pt "lng") (jGet pt "longitude"))

/-- `pt.get("ele") or pt.get("elevation") or pt.get("alt") or
pt.get("altitude")`. -/
def eleVal (pt : List (String × JValue)) : Option JValue :=
  pyOr2 (jGet pt "ele")
    (pyOr2 (jGet pt "elevation") (pyOr2 (jGet pt "alt") (jGet pt "altitude")))

/-- Python `float(x)` on a JSON value: numbers and booleans convert,
strings convert when they parse as a signed decimal numeral (stripped;
exponent/inf/nan forms are not needed by any string this development
evaluates), and `None`/lists/dicts raise `TypeError` (`none` here). -/
def jFloat : JValue → Option ℚ
  | .num q => some q
  | .bool b => some (if b then 1 else 0)
  | .str s => parseSignedDec (pyStrip s.data)
  | _ => none

def jFloatOpt : Option JValue → Option ℚ
  | none => none
  | some v => jFloat v

/-- Left-pad the decimal digits of `n` with zeros to width `w`. -/
def pad (w n : Nat) : List Char :=
  let d := Nat.toDigits 10 n
  List.replicate (w - d.length) '0' ++ d

/-- `t_utc.isoformat()` for a UTC datetime with `microsecond=0` (epoch
second `n`), followed by `.replace("+00:00", "Z")`. -/
def renderUtcSeconds (n : Int) : List Char :=
  let days := Int.fdiv n 86400
  let tod := (Int.emod n 86400).toNat
  let ymd := civilFromDays days
  let base := pad 4 ymd.1.toNat ++ '-' :: pad 2 ymd.2.1.toNat ++
    '-' :: pad 2 ymd.2.2.toNat ++ 'T' :: pad 2 (tod / 3600) ++
    ':' :: pad 2 (tod % 3600 / 60) ++ ':' :: pad 2 (tod % 60) ++ "+00:00".data
  pyReplace ("+00:00".data) ['Z'] base

/-- One rendered `<trkpt>` element: its `lat`/`lon` attribute texts and the
texts of its optional `<ele>` and `<time>` children. -/
structure Trkpt where
  lat : List Char
  lon : List Char
  ele : Option (List Char)
  time : Option (List Char)
deriving DecidableEq

/-- One iteration of the `for pt in track` loop of `track_to_gpx`.
A `float()` failure on the latitude/longitude chain or an uncaught
`parse_time` exception aborts the conversion (`Except.error`); a `float()`
failure on the elevation value is swallowed (`except: pass`), and the
`replace(microsecond=0)` step floors the timestamp to whole seconds. -/
def renderPoint (pt : List (String × JValue)) : Except Unit Trkpt :=
  match jFloatOpt (latVal pt) with
  | none => .error ()
  | some la =>
    match jFloatOpt (lonVal pt) with
    | none => .error ()
    | some lo =>
      let ele : Option (List Char) :=
        match eleVal pt with
        | none => none
        | some JValue.null => none
        | some v => (jFloat v).map formatFloat
      match parse_time pt with
      | .error e => .error e
      | .ok tOpt =>
        let time : Option (List Char) :=
          match tOpt with
          | none => none
          | some q => some (renderUtcSeconds q.floor)
        .ok ⟨formatFloat la, formatFloat lo, ele, time⟩

/-- `track_to_gpx` from workflow_to_gpx.py, as the list of rendered track
points (the fixed `gpx/trk/trkseg` wrapper carries no per-point data). -/
def track_to_gpx (track : List (List (String × JValue))) :
    Except Unit (List Trkpt) :=
  track.mapM renderPoint

/-- Predicate following the SPEC's words for claim C5, for comparison with
the code: some elevation-alias value of the point is numeric-parseable. -/
def spec_hasNumericElevationAlias (pt : List (String × JValue)) : Bool :=
  ["ele", "elevation", "alt", "altitude"].any fun k =>
    match jGet pt k with
    | some v => (jFloat v).isSome
    | none => false

/-! ## The sprint creator (`create_sprints.py`) -/

/-- One CSV data row: its `Sprint Name` and `Sprint Start Date` fields. -/
structure CsvRow where
  sprintName : String
  startDate : String
deriving DecidableEq

/-- A parsed sprint record (`{"name": ..., "start_date": ...}`). -/
structure SprintRec where
  name : String
  start : DT
deriving DecidableEq

/-- State of `parse_csv`'s row loop: the collected records and the number
of blank-name warnings printed to stderr. -/
structure CsvState where
  sprints : List SprintRec
  warnings : Nat
deriving DecidableEq

/-- `datetime.strptime(s, "%Y-%m-%d").date()`. -/
def dateParse (s : List Char) : Option DT := strptime "%Y-%m-%d".data s

/-- The `for row_num, row in enumerate(reader, start=2)` loop of
`parse_csv`: a blank (stripped) `Sprint Name` prints a warning and skips
the row without failing; an unparseable `Sprint Start Date` raises
`ValueError` (here carrying the row number and offending text). -/
def parseRows (n : Nat) (st : CsvState) :
    List CsvRow → Except (Nat × String) CsvState
  | [] => .ok st
  | r :: rest =>
    let name := pyStrip r.sprintName.data
    let dstr := pyStrip r.startDate.data
    if name.isEmpty then
      parseRows (n + 1) { st with warnings := st.warnings + 1 } rest
    else
      match dateParse dstr with
      | some d =>
        parseRows (n + 1)
          { st with sprints := st.sprints ++ [⟨String.mk name, d⟩] } rest
      | none => .error (n, r.startDate)

/-- `parse_csv` restricted to its row loop (file opening and the
required-header check happen before any row is read). -/
def parse_csv (rows : List CsvRow) : Except (Nat × String) CsvState :=
  parseRows 2 ⟨[], 0⟩ rows

/-- State of the sprint-creation loop in `main`: the in-memory set of
existing iteration titles, the two counters, and the names submitted to
the update mutation, in submission order. -/
structure RunState where
  existing : List String
  created : Nat
  skipped : Nat
  submitted : List String
deriving DecidableEq

/-- The `for sprint in sprints` loop of `main`.  `succeed i` says whether
the `i`-th submitted update mutation succeeds — an oracle for the GitHub
API environment.  A name already in the set is skipped without any
submission; on submission failure the exception is caught, logged, and the
loop continues without recording the name; on success the name is added to
the set (`existing_set.add(name)`). -/
def runSprintsAux (succeed : Nat → Bool) (st : RunState) :
    List SprintRec → RunState
  | [] => st
  | s :: rest =>
    if s.name ∈ st.existing then
      runSprintsAux succeed { st with skipped := st.skipped + 1 } rest
    else if succeed st.submitted.length then
      runSprintsAux succeed
        { st with
          submitted := st.submitted ++ [s.name],
          created := st.created + 1,
          existing := s.name :: st.existing } rest
    else
      runSprintsAux succeed
        { st with submitted := st.submitted ++ [s.name] } rest

/-- The creation phase of `main`: the loop run from the titles fetched by
`get_existing_iterations` just before it. -/
def runSprints (succeed : Nat → Bool) (existing : List String)
    (sprints : List SprintRec) : RunState :=
  runSprintsAux succeed ⟨existing, 0, 0, []⟩ sprints

/-! ## The index updater (`update_index.py`) -/

def START_MARKER : List Char := "<!-- TOOLS-LIST START -->".data

def END_MARKER : List Char := "<!-- TOOLS-LIST END -->".data

def EXCLUDED_DIRS : List String := [".git", ".github", "__pycache__", "node_modules"]

/-- Python `str` comparison (`<=`) on code points, as used by
`list.sort()`. -/
def strLeL : List Char → List Char → Bool
  | [], _ => true
  | _ :: _, [] => false
  | a :: as1, b :: bs => if a = b then strLeL as1 bs else decide (a < b)

def insertSorted (x : String) : List String → List String
  | [] => [x]
  | y :: ys => if strLeL x.data y.data then x :: y :: ys else y :: insertSorted x ys

/-- `tools.sort()`: sort ascending by code-point order. -/
def sortStrings (l : List String) : List String := l.foldr insertSorted []

/-- The directory filter of `generate_tools_html`:
`not d.startswith('.') and d not in EXCLUDED_DIRS`. -/
def keepsDir (d : String) : Bool :=
  (match d.data with | '.' :: _ => false | _ => true) &&
  !(EXCLUDED_DIRS.contains d)

/-- `"\n".join(...)`. -/
def joinNl : List (List Char) → List Char
  | [] => []
  | [x] => x
  | x :: y :: rest => x ++ '\n' :: joinNl (y :: rest)

/-- `generate_tools_html` from update_index.py, with the result of the
`os.listdir`/`isdir` scan supplied as `dirs` (the sibling directory
names). -/
def generate_tools_html (dirs : List String) : List Char :=
  let tools := sortStrings (dirs.filter keepsDir)
  let items := joinNl (tools.map (fun t =>
    "  <li><a href=\"".data ++ t.data ++ "/\">".data ++ t.data ++ "</a></li>".data))
  if items.isEmpty then "<p>No tools found.</p>".data
  else "<ul>\n".data ++ items ++ "\n</ul>".data

/-- Recursion of `re.sub(f"{START_MARKER}.*?{END_MARKER}", repl, content)`
with `re.DOTALL`, structurally recursive on a fuel: the leftmost match
starts at the first `START_MARKER` occurrence followed by some
`END_MARKER`, the non-greedy `.*?` ends it at the first `END_MARKER` after
that, and scanning resumes after the match. -/
def reSubAux (repl : List Char) : Nat → List Char → List Char
  | 0, s => s
  | fuel + 1, s =>
    match strSplitFirst START_MARKER s with
    | none => s
    | some ar =>
      match strSplitFirst END_MARKER ar.2 with
      | none => s
      | some mb => ar.1 ++ repl ++ reSubAux repl fuel mb.2

/-- The `re.sub` call of `main`: fuel `s.length` always suffices, because
each replaced match consumes at least the two markers. -/
def reSubMarkers (repl s : List Char) : List Char := reSubAux repl s.length s

theorem reSubAux_nil (repl : List Char) (f : Nat) : reSubAux repl f [] = [] := by
  cases f with
  | zero => rfl
  | succ k => rfl

theorem reSubAux_congr (repl : List Char) :
    ∀ (n f1 f2 : Nat) (s : List Char), s.length ≤ n → s.length ≤ f1 →
      s.length ≤ f2 → reSubAux repl f1 s = reSubAux repl f2 s := by
  intro n
  induction n with
  | zero =>
    intro f1 f2 s hn _ _
    have hs : s = [] := by
      cases s with
      | nil => rfl
      | cons c cs => simp at hn
    subst hs
    rw [reSubAux_nil, reSubAux_nil]
  | succ n ih =>
    intro f1 f2 s hn h1 h2
    cases s with
    | nil => rw [reSubAux_nil, reSubAux_nil]
    | cons c cs =>
      cases f1 with
      | zero => simp at h1
      | succ a =>
        cases f2 with
        | zero => simp at h2
        | succ b =>
          rw [reSubAux, reSubAux]
          cases hsp : strSplitFirst START_MARKER (c :: cs) with
          | none => simp only [hsp]
          | some ar =>
            simp only [hsp]
            cases hep : strSplitFirst END_MARKER ar.2 with
            | none => simp only [hep]
            | some mb =>
              simp only [hep]
              have e1 := (strSplitFirst_sound hsp).1
              have e2 := (strSplitFirst_sound hep).1
              have l1 : (c :: cs).length =
                  ar.1.length + START_MARKER.length + ar.2.length := by
                rw [e1]; simp only [List.length_append]
              have l2 : ar.2.length =
                  mb.1.length + END_MARKER.length + mb.2.length := by
                rw [e2]; simp only [List.length_append]
              have hsm : 0 < START_MARKER.length := by decide
              have hem : 0 < END_MARKER.length := by decide
              have hlen : mb.2.length + 1 ≤ (c :: cs).length := by omega
              have hcs : (c :: cs).length = cs.length + 1 := rfl
              rw [ih a b mb.2 (by omega) (by omega) (by omega)]

theorem reSubMarkers_no_start {repl s : List Char}
    (h1 : strSplitFirst START_MARKER s = none) : reSubMarkers repl s = s := by
  cases s with
  | nil => rfl
  | cons c cs =>
    show reSubAux repl (cs.length + 1) (c :: cs) = c :: cs
    rw [reSubAux]
    simp only [h1]

theorem strSplitFirst_start_nil :
    strSplitFirst START_MARKER ([] : List Char) = none := by decide

theorem reSubMarkers_no_end {repl s : List Char}
    {ar : List Char × List Char}
    (h1 : strSplitFirst START_MARKER s = some ar)
    (h2 : strSplitFirst END_MARKER ar.2 = none) : reSubMarkers repl s = s := by
  cases s with
  | nil => rw [strSplitFirst_start_nil] at h1; exact absurd h1 (by simp)
  | cons c cs =>
    show reSubAux repl (cs.length + 1) (c :: cs) = c :: cs
    rw [reSubAux]
    simp only [h1, h2]

theorem reSubMarkers_step (repl : List Char) {s : List Char}
    {ar mb : List Char × List Char}
    (h1 : strSplitFirst START_MARKER s = some ar)
    (h2 : strSplitFirst END_MARKER ar.2 = some mb) :
    reSubMarkers repl s = ar.1 ++ repl ++ reSubMarkers repl mb.2 := by
  cases s with
  | nil => rw [strSplitFirst_start_nil] at h1; exact absurd h1 (by simp)
  | cons c cs =>
    show reSubAux repl (cs.length + 1) (c :: cs) =
      ar.1 ++ repl ++ reSubAux repl mb.2.length mb.2
    rw [reSubAux]
    simp only [h1, h2]
    have e1 := (strSplitFirst_sound h1).1
    have e2 := (strSplitFirst_sound h2).1
    have l1 : (c :: cs).length =
        ar.1.length + START_MARKER.length + ar.2.length := by
      rw [e1]; simp only [List.length_append]
    have l2 : ar.2.length = mb.1.length + END_MARKER.length + mb.2.length := by
      rw [e2]; simp only [List.length_append]
    have hsm : 0 < START_MARKER.length := by decide
    have hem : 0 < END_MARKER.length := by decide
    have hcs : (c :: cs).length = cs.length + 1 := rfl
    rw [reSubAux_congr repl mb.2.length cs.length mb.2.length mb.2 (le_refl _)
      (by omega) (le_refl _)]

/-- One run of `main` in update_index.py: regenerate the marker-delimited
subtree of `content` from the sibling-directory listing `dirs`, returning
the resulting file content. -/
def updateIndexContent (dirs : List String) (content : List Char) : List Char :=
  let tools_html := generate_tools_html dirs
  reSubMarkers (START_MARKER ++ ('\n' :: (tools_html ++ ['\n'])) ++ END_MARKER)
    content

/-- The `if new_content != content` guard of `main`: whether the file is
rewritten. -/
def updateIndexWrites (dirs : List String) (content : List Char) : Bool :=
  !(updateIndexContent dirs content == content)

instance {ε α : Type} [DecidableEq ε] [DecidableEq α] :
    DecidableEq (Except ε α) := fun a b =>
  match a, b with
  | .ok x, .ok y =>
    if h : x = y then .isTrue (h ▸ rfl)
    else .isFalse (fun hc => h (Except.ok.inj hc))
  | .error x, .error y =>
    if h : x = y then .isTrue (h ▸ rfl)
    else .isFalse (fun hc => h (Except.error.inj hc))
  | .ok _, .error _ => .isFalse (fun hc => Except.noConfusion hc)
  | .error _, .ok _ => .isFalse (fun hc => Except.noConfusion hc)

/-! ## Claim theorems -/

theorem parse_time_single_num (v : ℚ) :
    parse_time [("time", JValue.num v)] =
      (fromtimestamp (numericTimestamp v)).map some := rfl

unseal Rat.mul Rat.inv Rat.add Rat.sub in
/-- Claim C1 (counterexample): the claim says a numeric timestamp `v` with
`|v| > 1e12` is parsed as epoch plus `v/1000` seconds, but the code tests
the signed value (`val > 1e12`), so `v = -2·10¹²` is kept as seconds — and
`datetime.fromtimestamp` then raises instead of producing epoch + `v/1000`
seconds. -/
theorem C1_counterexample :
    |(-(2 * 10 ^ 12) : ℚ)| > 10 ^ 12 ∧
    parse_time [("time", JValue.num (-(2 * 10 ^ 12)))] ≠
      Except.ok (some ((-(2 * 10 ^ 12) : ℚ) / 1000)) := by
  constructor
  · norm_num
  · decide

/-- Claim C1 (amended): a numeric timestamp value `v` is treated as
epoch-milliseconds only when the signed value exceeds 1e12 (`v > 1e12`),
not when its absolute value does; otherwise it is epoch-seconds.  The
conversion to an absolute UTC instant succeeds when the resulting instant
lies in `datetime`'s supported range (years 1..9999), and raises
otherwise. -/
theorem C1_amended (v : ℚ) :
    (10 ^ 12 < v → v / 1000 < 253402300800 →
      parse_time [("time", JValue.num v)] = Except.ok (some (v / 1000))) ∧
    (v ≤ 10 ^ 12 → -62135596800 ≤ v → v < 253402300800 →
      parse_time [("time", JValue.num v)] = Except.ok (some v)) := by
  constructor
  · intro h1 h2
    rw [parse_time_single_num]
    have hnum : numericTimestamp v = v / 1000 := by
      simp only [numericTimestamp]
      rw [if_pos h1]
    rw [hnum]
    simp only [fromtimestamp]
    rw [if_pos ⟨by linarith, h2⟩]
    rfl
  · intro h1 h2 h3
    rw [parse_time_single_num]
    have hnum : numericTimestamp v = v := by
      simp only [numericTimestamp]
      rw [if_neg (by linarith)]
    rw [hnum]
    simp only [fromtimestamp]
    rw [if_pos ⟨h2, h3⟩]
    rfl

/-- Claim C1 (witness): an in-range epoch-seconds value. -/
theorem C1_amended_witness :
    parse_time [("time", JValue.num 5)] = Except.ok (some 5) :=
  (C1_amended 5).2 (by norm_num) (by norm_num) (by norm_num)

/-- Claim C2: `find_tracks` classifies a list as a Track iff it is
non-empty and every element is a mapping with a latitude-alias and a
longitude-alias key (`goodSeq`); such a list is returned as exactly one
Track (`[xs]`, its elements not searched further), a list failing the
condition is searched element-by-element (`findInList`) and is never itself
returned, and every Track in any result satisfies the condition. -/
theorem C2_find_tracks (xs : List JValue) (doc : JValue) :
    (goodSeq xs = true → find_tracks (JValue.arr xs) = [xs]) ∧
    (goodSeq xs = false → find_tracks (JValue.arr xs) = findInList xs ∧
      xs ∉ find_tracks (JValue.arr xs)) ∧
    (∀ t ∈ find_tracks doc, goodSeq t = true) := by
  refine ⟨?_, ?_, find_tracks_good doc⟩
  · intro h
    rw [find_tracks, if_pos h]
  · intro h
    have heq : find_tracks (JValue.arr xs) = findInList xs := by
      rw [find_tracks, if_neg (by simp [h])]
    refine ⟨heq, fun hmem => ?_⟩
    have := find_tracks_good (JValue.arr xs) xs hmem
    rw [h] at this
    exact absurd this (by simp)

/-- Claim C2 (witness): a good one-point list is one Track; a list with a
non-mapping element is recursed into instead. -/
theorem C2_witness :
    find_tracks (JValue.arr [JValue.obj [("lat", JValue.num 1), ("lon", JValue.num 2)]]) =
      [[JValue.obj [("lat", JValue.num 1), ("lon", JValue.num 2)]]] ∧
    find_tracks (JValue.arr [JValue.num 3]) = findInList [JValue.num 3] :=
  ⟨(C2_find_tracks [JValue.obj [("lat", JValue.num 1), ("lon", JValue.num 2)]]
      JValue.null).1 rfl,
   ((C2_find_tracks [JValue.num 3] JValue.null).2.1 rfl).1⟩

unseal Rat.mul Rat.inv Rat.add Rat.sub in
/-- Claim C3 (counterexample): a boolean timestamp value is not treated as
absent: Python's `bool` is a subclass of `int`, so `True` passes the
`isinstance(t, (int, float))` check and parses as epoch second 1, not as
`None`. -/
theorem C3_counterexample :
    parse_time [("time", JValue.bool true)] = Except.ok (some 1) ∧
    parse_time [("time", JValue.bool true)] ≠ Except.ok none := by
  constructor
  · decide
  · decide

unseal Rat.mul Rat.inv Rat.add Rat.sub in
/-- Claim C3 (amended): when the first present non-null timestamp-alias
value is a sequence or a nested mapping, `parse_time` treats it as absent
(`None`); a boolean, however, is accepted as a numeric timestamp
(`True` as 1, `False` as 0) because `bool` is an `int` subclass. -/
theorem C3_amended (pt : List (String × JValue)) :
    (∀ xs, firstCandidate pt = some (JValue.arr xs) →
      parse_time pt = Except.ok none) ∧
    (∀ kvs, firstCandidate pt = some (JValue.obj kvs) →
      parse_time pt = Except.ok none) ∧
    (∀ b, firstCandidate pt = some (JValue.bool b) →
      parse_time pt = Except.ok (some (if b then 1 else 0))) := by
  refine ⟨fun xs h => ?_, fun kvs h => ?_, fun b h => ?_⟩
  · unfold parse_time
    rw [h]
  · unfold parse_time
    rw [h]
  · unfold parse_time
    rw [h]
    cases b <;> decide

/-- Claim C3 (witness): a sequence value under the `ts` alias is treated
as an absent timestamp. -/
theorem C3_amended_witness :
    parse_time [("ts", JValue.arr [JValue.num 1])] = Except.ok none :=
  (C3_amended [("ts", JValue.arr [JValue.num 1])]).1 [JValue.num 1] rfl

unseal Rat.mul Rat.inv Rat.add Rat.sub in
/-- Claim C4: rendering the single point
`{lat: 10.5, lon: -20.25, time: "2024-01-02T03:04:05Z"}` produces one
track-point element with attribute texts `10.5` and `-20.25`, no elevation
child, and a time child with text `2024-01-02T03:04:05Z`. -/
theorem C4_roundtrip :
    track_to_gpx [[("lat", JValue.num (21 / 2)), ("lon", JValue.num (-81 / 4)),
        ("time", JValue.str "2024-01-02T03:04:05Z")]] =
      Except.ok [⟨"10.5".data, "-20.25".data, none,
        some ("2024-01-02T03:04:05Z".data)⟩] := by
  decide

/-- The elevation-emission condition actually implemented by
`track_to_gpx`: the truthiness-based `or`-chain over the elevation aliases
yields a non-`None` value and `float()` succeeds on it. -/
def eleEmitted (pt : List (String × JValue)) : Bool :=
  match eleVal pt with
  | none => false
  | some JValue.null => false
  | some v => (jFloat v).isSome

unseal Rat.mul Rat.inv Rat.add Rat.sub in
/-- Claim C5 (counterexample): a point whose only elevation alias is
`ele: 0` has a numeric-parseable elevation alias, yet no elevation element
is emitted — `0` is falsy, so the `or`-chain discards it. -/
theorem C5_counterexample :
    spec_hasNumericElevationAlias
      [("lat", JValue.num 1), ("lon", JValue.num 1), ("ele", JValue.num 0)] = true ∧
    renderPoint
      [("lat", JValue.num 1), ("lon", JValue.num 1), ("ele", JValue.num 0)] =
      Except.ok ⟨"1.0".data, "1.0".data, none, none⟩ := by
  constructor
  · decide
  · decide

/-- Claim C5 (amended): for every successfully rendered point, an
elevation element is emitted iff the value selected by the truthiness
`or`-chain `ele or elevation or alt or altitude` is not `None` and parses
as a float — not iff some alias is numeric-parseable; falsy alias values
(such as `0`) are passed over by the chain. -/
theorem C5_amended (pt : List (String × JValue)) (tp : Trkpt)
    (h : renderPoint pt = Except.ok tp) :
    tp.ele.isSome = eleEmitted pt := by
  unfold renderPoint at h
  cases hla : jFloatOpt (latVal pt) with
  | none => rw [hla] at h; exact absurd h (by simp)
  | some la =>
    rw [hla] at h
    cases hlo : jFloatOpt (lonVal pt) with
    | none => rw [hlo] at h; exact absurd h (by simp)
    | some lo =>
      rw [hlo] at h
      cases hpt : parse_time pt with
      | error e => rw [hpt] at h; exact absurd h (by simp)
      | ok tOpt =>
        rw [hpt] at h
        simp only [Except.ok.injEq] at h
        subst h
        unfold eleEmitted
        cases hev : eleVal pt with
        | none => simp
        | some v => cases v <;> simp

unseal Rat.mul Rat.inv Rat.add Rat.sub in
/-- Claim C5 (witness): a point with `alt: 5` renders with an elevation
element, matching the chain condition. -/
theorem C5_amended_witness :
    (Trkpt.mk "1.0".data "2.0".data (some ("5.0".data)) none).ele.isSome =
      eleEmitted [("lat", JValue.num 1), ("lon", JValue.num 2), ("alt", JValue.num 5)] :=
  C5_amended [("lat", JValue.num 1), ("lon", JValue.num 2), ("alt", JValue.num 5)]
    (Trkpt.mk "1.0".data "2.0".data (some ("5.0".data)) none) (by decide)

unseal Rat.mul Rat.inv Rat.add Rat.sub in
/-- Claim C6: the strings `"2024/01/02 11:04:05 PM"` (slash-dated,
12-hour clock) and `"2024-01-02T23:04:05Z"` (ISO with Zulu suffix) parse
to the same absolute instant, epoch second 1704236645. -/
theorem C6_equal_instants :
    parse_time [("time", JValue.str "2024/01/02 11:04:05 PM")] =
      Except.ok (some 1704236645) ∧
    parse_time [("time", JValue.str "2024-01-02T23:04:05Z")] =
      Except.ok (some 1704236645) := by
  constructor
  · decide
  · decide

theorem runSprintsAux_not_submitted (succeed : Nat → Bool) (name : String) :
    ∀ (sprints : List SprintRec) (st : RunState),
      name ∈ st.existing → name ∉ st.submitted →
      name ∉ (runSprintsAux succeed st sprints).submitted := by
  intro sprints
  induction sprints with
  | nil =>
    intro st h1 h2
    simpa [runSprintsAux] using h2
  | cons s rest ih =>
    intro st h1 h2
    rw [runSprintsAux]
    by_cases hmem : s.name ∈ st.existing
    · rw [if_pos hmem]
      exact ih _ h1 h2
    · rw [if_neg hmem]
      have hne : s.name ≠ name := fun he => hmem (he ▸ h1)
      by_cases hsucc : succeed st.submitted.length = true
      · rw [if_pos hsucc]
        apply ih
        · exact List.mem_cons_of_mem _ h1
        · intro hc
          rcases List.mem_append.mp hc with hcl | hcr
          · exact h2 hcl
          · simp at hcr
            exact hne hcr.symm
      · rw [if_neg hsucc]
        apply ih
        · exact h1
        · intro hc
          rcases List.mem_append.mp hc with hcl | hcr
          · exact h2 hcl
          · simp at hcr
            exact hne hcr.symm

/-- Claim C7: a sprint record whose name equals a title fetched before the
creation loop is skipped — the update mutation is never submitted for that
name during the run — and the loop continues with the next record, only
incrementing the skip counter. -/
theorem C7_skip_existing (succeed : Nat → Bool) (init : List String)
    (sprints : List SprintRec) (name : String) (h : name ∈ init) :
    name ∉ (runSprints succeed init sprints).submitted ∧
    (∀ (st : RunState) (s : SprintRec) (rest : List SprintRec),
      s.name ∈ st.existing →
      runSprintsAux succeed st (s :: rest) =
        runSprintsAux succeed { st with skipped := st.skipped + 1 } rest) := by
  constructor
  · exact runSprintsAux_not_submitted succeed name sprints ⟨init, 0, 0, []⟩ h
      (by simp)
  · intro st s rest hmem
    rw [runSprintsAux, if_pos hmem]

/-- Claim C7 (witness): a record named like an existing iteration is never
submitted. -/
theorem C7_witness :
    "A" ∉ (runSprints (fun _ => true) ["A"]
      [⟨"A", ⟨2024, 1, 1, 0, 0, 0, 0, none⟩⟩]).submitted :=
  (C7_skip_existing (fun _ => true) ["A"]
    [⟨"A", ⟨2024, 1, 1, 0, 0, 0, 0, none⟩⟩] "A" (by decide)).1

/-- Claim C8: a CSV row whose stripped `Sprint Name` is blank makes the
row loop emit one warning and drop the row — no error is raised, the
collected records are unchanged, and parsing continues with the remaining
rows (whose date fields are processed as usual). -/
theorem C8_blank_name (n : Nat) (st : CsvState) (r : CsvRow)
    (rest : List CsvRow) (h : pyStrip r.sprintName.data = []) :
    parseRows n st (r :: rest) =
      parseRows (n + 1) { st with warnings := st.warnings + 1 } rest := by
  rw [parseRows]
  simp [h]

/-- Claim C8 (witness): a whitespace-only name row is skipped with a
warning and the next row is still processed. -/
theorem C8_witness :
    parseRows 2 ⟨[], 0⟩ [⟨"  ", "2024-01-01"⟩, ⟨"B", "2024-01-02"⟩] =
      parseRows 3 ⟨[], 1⟩ [⟨"B", "2024-01-02"⟩] :=
  C8_blank_name 2 ⟨[], 0⟩ ⟨"  ", "2024-01-01"⟩ [⟨"B", "2024-01-02"⟩]
    (by decide)

/-- Claim C9 (counterexample): when an update mutation fails, the sprint
name is not added to the in-memory set, so a later CSV record with the
same name is submitted again — here `"A"` is submitted twice in one
run. -/
theorem C9_counterexample :
    ¬ List.Nodup ((runSprints (fun _ => false) []
      [⟨"A", ⟨2024, 1, 1, 0, 0, 0, 0, none⟩⟩,
       ⟨"A", ⟨2024, 1, 8, 0, 0, 0, 0, none⟩⟩]).submitted) := by
  decide

theorem runSprintsAux_nodup (sprints : List SprintRec) :
    ∀ st : RunState, st.submitted.Nodup →
      (∀ x ∈ st.submitted, x ∈ st.existing) →
      ((runSprintsAux (fun _ => true) st sprints).submitted).Nodup := by
  induction sprints with
  | nil =>
    intro st h1 _
    simpa [runSprintsAux] using h1
  | cons s rest ih =>
    intro st h1 h2
    rw [runSprintsAux]
    by_cases hmem : s.name ∈ st.existing
    · rw [if_pos hmem]
      exact ih _ h1 h2
    · rw [if_neg hmem, if_pos rfl]
      apply ih
      · rw [List.nodup_append]
        refine ⟨h1, by simp, ?_⟩
        intro x hx hx1
        simp at hx1
        subst hx1
        exact hmem (h2 _ hx)
      · intro x hx
        rcases List.mem_append.mp hx with hcl | hcr
        · exact List.mem_cons_of_mem _ (h2 x hcl)
        · simp at hcr
          subst hcr
          exact List.mem_cons_self _ _

/-- Claim C9 (amended): provided every submitted update mutation succeeds,
no sprint name is submitted more than once in a run: after a successful
creation the name joins the in-memory set, so every later record with the
same name is skipped; a name whose submission failed may be resubmitted. -/
theorem C9_amended (init : List String) (sprints : List SprintRec) :
    ((runSprints (fun _ => true) init sprints).submitted).Nodup :=
  runSprintsAux_nodup sprints ⟨init, 0, 0, []⟩ (by simp) (by simp)

set_option maxRecDepth 4000 in
/-- Claim C10 (counterexample): with a sibling directory literally named
`<!-- TOOLS-LIST END -->`, the regenerated list embeds the end marker, the
non-greedy pattern then matches a shorter span on the second run, and the
updater is not idempotent — the second run changes `index.html` again and
rewrites it. -/
theorem C10_counterexample :
    updateIndexContent ["<!-- TOOLS-LIST END -->"]
        (updateIndexContent ["<!-- TOOLS-LIST END -->"]
          (START_MARKER ++ END_MARKER)) ≠
      updateIndexContent ["<!-- TOOLS-LIST END -->"]
        (START_MARKER ++ END_MARKER) ∧
    updateIndexWrites ["<!-- TOOLS-LIST END -->"]
      (updateIndexContent ["<!-- TOOLS-LIST END -->"]
        (START_MARKER ++ END_MARKER)) = true := by
  constructor
  · decide
  · decide

/-- `pat` has no nontrivial border: no proper nonempty prefix of it is
also a suffix.  This rules out overlapping occurrences of `pat`. -/
def BorderFree (pat : List Char) : Prop :=
  ∀ k, k < pat.length → 0 < k →
    pat.drop k ≠ pat.take (pat.length - k)

theorem endMarker_borderFree : BorderFree END_MARKER := by
  unfold BorderFree
  decide

theorem no_occurrence_of_not_containsSub {pat u : List Char}
    (h : containsSub pat u = false) : ∀ a b, u ≠ a ++ pat ++ b := by
  intro a b heq
  have hs := strSplitFirst_isSome_of_occurs heq
  have h2 : (strSplitFirst pat u).isSome = false := h
  rw [hs] at h2
  simp at h2

theorem minSplit_of_no_occurrence {pat u : List Char}
    (hocc : ∀ a b : List Char, u ≠ a ++ pat ++ b)
    (hbf : BorderFree pat) (t : List Char) : MinSplit pat u t := by
  intro a' b' heq
  by_contra hlt
  push_neg at hlt
  have htail : pat ++ b' = u.drop a'.length ++ (pat ++ t) := by
    have h1 : (u ++ pat ++ t).drop a'.length = u.drop a'.length ++ (pat ++ t) := by
      rw [List.append_assoc]
      exact List.drop_append_of_le_length (by omega)
    have h2 : (a' ++ pat ++ b').drop a'.length = pat ++ b' := by
      rw [List.append_assoc, List.drop_append_of_le_length (le_refl _),
        List.drop_length, List.nil_append]
    rw [← heq, h1] at h2
    exact h2.symm
  have hw : 0 < (u.drop a'.length).length := by
    rw [List.length_drop]
    omega
  by_cases hwl : pat.length ≤ (u.drop a'.length).length
  · have hp : pat = (u.drop a'.length).take pat.length := by
      have h3 := congrArg (List.take pat.length) htail
      rw [List.take_append_of_le_length (le_refl _), List.take_length,
        List.take_append_of_le_length hwl] at h3
      exact h3
    apply hocc (u.take a'.length) ((u.drop a'.length).drop pat.length)
    conv_lhs => rw [← List.take_append_drop a'.length u]
    rw [List.append_assoc]
    congr 1
    conv_lhs => rw [← List.take_append_drop pat.length (u.drop a'.length)]
    rw [← hp]
  · push_neg at hwl
    have hsplit : pat = u.drop a'.length ++
        pat.take (pat.length - (u.drop a'.length).length) := by
      have h3 := congrArg (List.take pat.length) htail
      rw [List.take_append_of_le_length (le_refl _), List.take_length,
        List.take_append_eq_append_take,
        List.take_of_length_le (le_of_lt hwl),
        List.take_append_of_le_length (by omega)] at h3
      exact h3
    have hborder : pat.drop (u.drop a'.length).length =
        pat.take (pat.length - (u.drop a'.length).length) := by
      have h4 := congrArg (List.drop (u.drop a'.length).length) hsplit
      rw [List.drop_append_of_le_length (le_refl _), List.drop_length,
        List.nil_append] at h4
      exact h4
    exact hbf (u.drop a'.length).length hwl hw hborder

theorem reSubMarkers_idem_aux (html : List Char)
    (hocc : ∀ a b : List Char, ('\n' :: (html ++ ['\n'])) ≠ a ++ END_MARKER ++ b) :
    ∀ (n : Nat) (s : List Char), s.length ≤ n →
      reSubMarkers (START_MARKER ++ ('\n' :: (html ++ ['\n'])) ++ END_MARKER)
          (reSubMarkers (START_MARKER ++ ('\n' :: (html ++ ['\n'])) ++ END_MARKER) s) =
        reSubMarkers (START_MARKER ++ ('\n' :: (html ++ ['\n'])) ++ END_MARKER) s := by
  intro n
  induction n with
  | zero =>
    intro s hn
    have hs : s = [] := by
      cases s with
      | nil => rfl
      | cons c cs => simp at hn
    subst hs
    rfl
  | succ n ih =>
    intro s hn
    cases h1 : strSplitFirst START_MARKER s with
    | none => rw [reSubMarkers_no_start h1, reSubMarkers_no_start h1]
    | some ar =>
      cases h2 : strSplitFirst END_MARKER ar.2 with
      | none => rw [reSubMarkers_no_end h1 h2, reSubMarkers_no_end h1 h2]
      | some mb =>
        have hstep := reSubMarkers_step
          (START_MARKER ++ ('\n' :: (html ++ ['\n'])) ++ END_MARKER) h1 h2
        obtain ⟨he1, hmin1⟩ := strSplitFirst_sound h1
        obtain ⟨he2, hmin2⟩ := strSplitFirst_sound h2
        have hminS : MinSplit START_MARKER ar.1
            (('\n' :: (html ++ ['\n'])) ++ END_MARKER ++
              reSubMarkers (START_MARKER ++ ('\n' :: (html ++ ['\n'])) ++ END_MARKER) mb.2) :=
          minSplit_transfer hmin1 _
        have hsplitS : strSplitFirst START_MARKER
            (ar.1 ++ (START_MARKER ++ ('\n' :: (html ++ ['\n'])) ++ END_MARKER) ++
              reSubMarkers (START_MARKER ++ ('\n' :: (html ++ ['\n'])) ++ END_MARKER) mb.2) =
            some (ar.1, ('\n' :: (html ++ ['\n'])) ++ END_MARKER ++
              reSubMarkers (START_MARKER ++ ('\n' :: (html ++ ['\n'])) ++ END_MARKER) mb.2) := by
          have h5 := strSplitFirst_of hminS
          have heq2 : ar.1 ++ START_MARKER ++
              (('\n' :: (html ++ ['\n'])) ++ END_MARKER ++
                reSubMarkers (START_MARKER ++ ('\n' :: (html ++ ['\n'])) ++ END_MARKER) mb.2) =
              ar.1 ++ (START_MARKER ++ ('\n' :: (html ++ ['\n'])) ++ END_MARKER) ++
                reSubMarkers (START_MARKER ++ ('\n' :: (html ++ ['\n'])) ++ END_MARKER) mb.2 := by
            simp only [List.append_assoc]
          rw [heq2] at h5
          exact h5
        have hminE : MinSplit END_MARKER ('\n' :: (html ++ ['\n']))
            (reSubMarkers (START_MARKER ++ ('\n' :: (html ++ ['\n'])) ++ END_MARKER) mb.2) :=
          minSplit_of_no_occurrence hocc endMarker_borderFree _
        have hsplitE := strSplitFirst_of hminE
        have hstep2 := reSubMarkers_step
          (START_MARKER ++ ('\n' :: (html ++ ['\n'])) ++ END_MARKER)
          hsplitS hsplitE
        have l1 : s.length = ar.1.length + START_MARKER.length + ar.2.length := by
          rw [he1]; simp only [List.length_append]
        have l2 : ar.2.length = mb.1.length + END_MARKER.length + mb.2.length := by
          rw [he2]; simp only [List.length_append]
        have hsm : 0 < START_MARKER.length := by decide
        have hem : 0 < END_MARKER.length := by decide
        have hidb := ih mb.2 (by omega)
        rw [hstep, hstep2, hidb]

/-- Claim C10 (amended): the index updater is idempotent provided the
regenerated interior (newline, generated tools list, newline) contains no
occurrence of the end marker — in particular for any ordinary directory
names — and on the second run the regenerated subtree equals the current
content, so the file is not rewritten.  (A directory name embedding the
end marker, as in the counterexample, breaks idempotence.) -/
theorem C10_amended (dirs : List String) (content : List Char)
    (h : containsSub END_MARKER
        ('\n' :: (generate_tools_html dirs ++ ['\n'])) = false) :
    updateIndexContent dirs (updateIndexContent dirs content) =
      updateIndexContent dirs content ∧
    updateIndexWrites dirs (updateIndexContent dirs content) = false := by
  have hocc := no_occurrence_of_not_containsSub h
  have hid := reSubMarkers_idem_aux (generate_tools_html dirs) hocc
    content.length content (le_refl _)
  constructor
  · exact hid
  · have hid2 : updateIndexContent dirs (updateIndexContent dirs content) =
        updateIndexContent dirs content := hid
    simp [updateIndexWrites, hid2]

/-- Claim C10 (witness): with an ordinary directory name the second run
changes nothing and does not rewrite the file. -/
theorem C10_amended_witness :
    updateIndexContent ["alpha"]
        (updateIndexContent ["alpha"] (START_MARKER ++ END_MARKER)) =
      updateIndexContent ["alpha"] (START_MARKER ++ END_MARKER) ∧
    updateIndexWrites ["alpha"]
      (updateIndexContent ["alpha"] (START_MARKER ++ END_MARKER)) = false :=
  C10_amended ["alpha"] (START_MARKER ++ END_MARKER) (by decide)

end Tools
